import Mathlib

/-!
Linear-regression comparator: a shallow embedding of the numerically
meaningful core of the repository.  The truncation-error notebook defines two
least-squares line estimators over numpy arrays: `LinearFit` (the
moments-of-products formula) and `LinearFit2` (the centered-sums formula),
runs both on ten timestamps carrying a large baseline offset, and prints the
resulting slopes.  A second notebook (variable-scope) defines `function4`,
which assigns into its array argument in place, and `function4_safe`, which
copies the argument first.

Numbers are modelled as rationals (exact arithmetic).  Two source failure
modes are modelled by `Option.none`: `np.average` of an empty array yields a
non-finite value (with a runtime warning), and a division whose denominator
is zero yields a non-finite value.  In-place element assignment on an array
is modelled by `List.set`; every other numpy operation used by the
estimators allocates a fresh array, so the caller-visible arrays after an
estimator call are the original ones.
-/

namespace Scripts

/-- Arithmetic mean of a list of rationals, `sum / length`: the value
`np.average` computes on a non-empty array. -/
def meanQ (xs : List ℚ) : ℚ := xs.sum / xs.length

/-- Model of `np.average`.  On an empty array the source divides by a zero
length, signals a runtime warning and produces a non-finite value: modelled
as `none`.  On a non-empty array it returns the arithmetic mean. -/
def average : List ℚ → Option ℚ
  | [] => none
  | x :: xs => some (meanQ (x :: xs))

/-- The naive estimator of the truncation-error notebook:

    def LinearFit(x, y):
        xMean = np.average(x)
        yMean = np.average(y)
        x2Mean = np.average(x**2)
        xyMean = np.average(x*y)
        beta = (xyMean - xMean * yMean) / (x2Mean - xMean**2)
        alpha = yMean - beta * xMean
        return beta, alpha

Both `x**2` and `x*y` are elementwise.  A division by a zero denominator
(degenerate input) yields a non-finite value in the source, modelled as
`none`. -/
def LinearFit (x y : List ℚ) : Option (ℚ × ℚ) :=
  match average x, average y, average (x.map fun a => a ^ 2),
      average (List.zipWith (fun a b => a * b) x y) with
  | some xMean, some yMean, some x2Mean, some xyMean =>
    if x2Mean - xMean ^ 2 = 0 then none
    else
      let beta := (xyMean - xMean * yMean) / (x2Mean - xMean ^ 2)
      some (beta, yMean - beta * xMean)
  | _, _, _, _ => none

/-- The stable estimator of the truncation-error notebook:

    def LinearFit2(x, y):
        xMean = np.average(x)
        yMean = np.average(y)
        beta = np.sum((x - xMean) * (y - yMean)) / np.sum((x - xMean)**2)
        alpha = yMean - beta * xMean
        return beta, alpha

A division by a zero denominator yields a non-finite value in the source,
modelled as `none`. -/
def LinearFit2 (x y : List ℚ) : Option (ℚ × ℚ) :=
  match average x, average y with
  | some xMean, some yMean =>
    let num := (List.zipWith (fun a b => (a - xMean) * (b - yMean)) x y).sum
    let den := (x.map fun a => (a - xMean) ^ 2).sum
    if den = 0 then none
    else
      let beta := num / den
      some (beta, yMean - beta * xMean)
  | _, _ => none

/-- Centered sum of squares `np.sum((x - xMean)**2)`, the denominator of the
stable estimator. -/
def sxx (x : List ℚ) : ℚ := (x.map fun a => (a - meanQ x) ^ 2).sum

/-- Centered cross sum `np.sum((x - xMean) * (y - yMean))`, the numerator of
the stable estimator. -/
def sxy (x y : List ℚ) : ℚ :=
  (List.zipWith (fun a b => (a - meanQ x) * (b - meanQ y)) x y).sum

/-- The comparator cell of the truncation-error notebook.  It computes and
prints exactly three slope values, in this order:

    lfBaseline = LinearFit(t, ph);            print(lfBaseline[0])
    lfNoBaseline = LinearFit(t-baseline, ph); print(lfNoBaseline[0])
    lf2Baseline = LinearFit2(t, ph);          print(lf2Baseline[0])

that is, naive with the offset present, naive with the offset subtracted
first, and stable with the offset present.  The list collects the printed
slopes in print order. -/
def comparatorSlopes (x y : List ℚ) (B : ℚ) : List (Option ℚ) :=
  [Option.map Prod.fst (LinearFit x y),
   Option.map Prod.fst (LinearFit (x.map fun a => a - B) y),
   Option.map Prod.fst (LinearFit2 x y)]

/-- `baseline = 770656.892832` from the notebook. -/
def baseline : ℚ := 770656892832 / 1000000

/-- `_t`, the ten timestamps of the notebook before the baseline is added. -/
def tRaw : List ℚ :=
  [440225 / 1000000, 450230 / 1000000, 460235 / 1000000, 470241 / 1000000,
   480245 / 1000000, 490251 / 1000000, 500256 / 1000000, 510261 / 1000000,
   520266 / 1000000, 530271 / 1000000]

/-- `t = baseline + _t` from the notebook. -/
def tData : List ℚ := tRaw.map fun a => baseline + a

/-- `ph`, the ten phase values of the notebook. -/
def phData : List ℚ :=
  [5681473 / 10000, 5684774 / 10000, 5687626 / 10000, 5690398 / 10000,
   5692340 / 10000, 5695013 / 10000, 5698461 / 10000, 5701536 / 10000,
   5703557 / 10000, 5706171 / 10000]

/-- Calling convention of `LinearFit`: the result together with the
caller-visible arrays after the call.  Every operation in the body
(`np.average`, `**`, `*`, the arithmetic on scalars) allocates fresh values;
no statement assigns into `x` or `y`, so the caller's arrays after the call
are the inputs themselves. -/
def LinearFitCall (x y : List ℚ) : Option (ℚ × ℚ) × List ℚ × List ℚ :=
  (LinearFit x y, x, y)

/-- Calling convention of `LinearFit2`: result plus caller-visible arrays
after the call; the body contains no in-place assignment. -/
def LinearFit2Call (x y : List ℚ) : Option (ℚ × ℚ) × List ℚ × List ℚ :=
  (LinearFit2 x y, x, y)

/-- Calling convention of the comparator cell: the printed report plus the
caller-visible arrays after the cell runs; `t-baseline` allocates a fresh
array and nothing assigns into `t` or `ph`. -/
def comparatorCall (x y : List ℚ) (B : ℚ) : List (Option ℚ) × List ℚ × List ℚ :=
  (comparatorSlopes x y B, x, y)

/-- Model of `e.copy()`: a fresh array with the same contents (value copy). -/
def npCopy (e : List ℚ) : List ℚ := e

/-- Model of `function4` of the variable-scope notebook:

    def function4(e):
        e[2] = 0

The result is the caller-visible array after the call: `e[2] = 0` assigns
into the caller's array in place (modelled by `List.set`).  When the array
has no index 2, numpy raises an IndexError, modelled as `none`. -/
def function4 (e : List ℚ) : Option (List ℚ) :=
  if 2 < e.length then some (e.set 2 0) else none

/-- Model of `function4_safe` of the variable-scope notebook:

    def function4_safe(e):
        e = e.copy()
        e[2] = 1

The local name is rebound to a copy, so the assignment mutates only the
copy; the caller-visible array after a successful call is the original `e`.
When the copy has no index 2, numpy raises an IndexError, modelled as
`none`. -/
def function4_safe (e : List ℚ) : Option (List ℚ) :=
  if 2 < (npCopy e).length then some e else none

/-- A non-empty list of rationals has a nonzero length cast. -/
theorem length_cast_ne_zero {x : List ℚ} (hx : x ≠ []) : (x.length : ℚ) ≠ 0 := by
  have : 0 < x.length := List.length_pos.mpr hx
  exact_mod_cast Nat.pos_iff_ne_zero.mp this

theorem length_mul_meanQ {x : List ℚ} (hx : x ≠ []) :
    (x.length : ℚ) * meanQ x = x.sum := by
  rw [meanQ, mul_div_cancel₀]
  exact length_cast_ne_zero hx

theorem sum_map_sub_sq (c : ℚ) (x : List ℚ) :
    (x.map fun a => (a - c) ^ 2).sum
      = (x.map fun a => a ^ 2).sum - 2 * c * x.sum + x.length * c ^ 2 := by
  induction x with
  | nil => simp
  | cons a t ih =>
    simp only [List.map_cons, List.sum_cons, List.length_cons, ih]
    push_cast
    ring

theorem sum_zipWith_sub_mul (c d : ℚ) :
    ∀ (x y : List ℚ), x.length = y.length →
      (List.zipWith (fun a b => (a - c) * (b - d)) x y).sum
        = (List.zipWith (fun a b => a * b) x y).sum
            - d * x.sum - c * y.sum + x.length * (c * d)
  | [], [], _ => by simp
  | a :: x, b :: y, h => by
    have hlen : x.length = y.length := by simpa using h
    have ih := sum_zipWith_sub_mul c d x y hlen
    simp only [List.zipWith_cons_cons, List.sum_cons, List.length_cons, ih]
    push_cast
    ring

theorem sum_map_add_const (B : ℚ) (x : List ℚ) :
    (x.map fun a => a + B).sum = x.sum + x.length * B := by
  induction x with
  | nil => simp
  | cons a t ih =>
    simp only [List.map_cons, List.sum_cons, List.length_cons, ih]
    push_cast
    ring

/-- Adding a constant offset to every element shifts the mean by exactly that
offset. -/
theorem meanQ_map_add {x : List ℚ} (B : ℚ) (hx : x ≠ []) :
    meanQ (x.map fun a => a + B) = meanQ x + B := by
  have hn := length_cast_ne_zero hx
  rw [meanQ, meanQ, sum_map_add_const, List.length_map]
  field_simp
  ring

theorem sum_map_const {c : ℚ} : ∀ {x : List ℚ}, (∀ a ∈ x, a = c) → x.sum = x.length * c
  | [], _ => by simp
  | a :: t, h => by
    have ha : a = c := h a (List.mem_cons_self a t)
    have ht : t.sum = t.length * c := sum_map_const fun b hb => h b (List.mem_cons_of_mem a hb)
    simp only [List.sum_cons, List.length_cons, ha, ht]
    push_cast
    ring

theorem meanQ_const {c : ℚ} {x : List ℚ} (hx : x ≠ []) (h : ∀ a ∈ x, a = c) :
    meanQ x = c := by
  have hn := length_cast_ne_zero hx
  rw [meanQ, sum_map_const h, mul_comm, mul_div_assoc, div_self hn, mul_one]

theorem sum_sq_nonneg (c : ℚ) (x : List ℚ) :
    0 ≤ (x.map fun a => (a - c) ^ 2).sum := by
  apply List.sum_nonneg
  intro q hq
  obtain ⟨a, _, rfl⟩ := List.mem_map.mp hq
  positivity

/-- A zero sum of squared deviations forces every element to equal the
center. -/
theorem eq_of_sum_sq_eq_zero {c : ℚ} :
    ∀ {x : List ℚ}, (x.map fun a => (a - c) ^ 2).sum = 0 → ∀ a ∈ x, a = c
  | [], _, a, ha => absurd ha (List.not_mem_nil a)
  | b :: t, h, a, ha => by
    simp only [List.map_cons, List.sum_cons] at h
    have h1 : 0 ≤ (b - c) ^ 2 := sq_nonneg _
    have h2 : 0 ≤ (t.map fun a => (a - c) ^ 2).sum := sum_sq_nonneg c t
    have hb : (b - c) ^ 2 = 0 := by linarith
    have hbc : b = c := by
      have := sq_eq_zero_iff.mp hb
      linarith
    rcases List.mem_cons.mp ha with rfl | hat
    · exact hbc
    · exact eq_of_sum_sq_eq_zero (by linarith) a hat

theorem average_eq_some {x : List ℚ} (hx : x ≠ []) : average x = some (meanQ x) := by
  cases x with
  | nil => exact absurd rfl hx
  | cons a t => rfl

/-- Unfolding of `LinearFit` on non-degenerate input. -/
theorem linearFit_of_ne (x y : List ℚ) (hx : x ≠ []) (hy : y ≠ [])
    (hden : meanQ (x.map fun a => a ^ 2) - meanQ x ^ 2 ≠ 0) :
    LinearFit x y =
      some ((meanQ (List.zipWith (fun a b => a * b) x y) - meanQ x * meanQ y) /
              (meanQ (x.map fun a => a ^ 2) - meanQ x ^ 2),
            meanQ y -
              (meanQ (List.zipWith (fun a b => a * b) x y) - meanQ x * meanQ y) /
                (meanQ (x.map fun a => a ^ 2) - meanQ x ^ 2) * meanQ x) := by
  have hx2 : x.map (fun a => a ^ 2) ≠ [] := by
    simpa using hx
  have hxy : List.zipWith (fun a b => a * b) x y ≠ [] := by
    cases x with
    | nil => exact absurd rfl hx
    | cons a t =>
      cases y with
      | nil => exact absurd rfl hy
      | cons b s => simp
  rw [LinearFit, average_eq_some hx, average_eq_some hy, average_eq_some hx2,
      average_eq_some hxy]
  simp only [if_neg hden]

/-- Unfolding of `LinearFit2` on non-degenerate input. -/
theorem linearFit2_of_ne (x y : List ℚ) (hx : x ≠ []) (hy : y ≠ [])
    (hden : sxx x ≠ 0) :
    LinearFit2 x y =
      some (sxy x y / sxx x, meanQ y - sxy x y / sxx x * meanQ x) := by
  rw [LinearFit2, average_eq_some hx, average_eq_some hy]
  simp only [if_neg (by simpa [sxx] using hden)]
  rfl

/-- Centered sum of squares written through the raw second moment. -/
theorem den2_eq (x : List ℚ) (hx : x ≠ []) :
    sxx x = x.length * (meanQ (x.map fun a => a ^ 2) - meanQ x ^ 2) := by
  have hn := length_cast_ne_zero hx
  rw [sxx, sum_map_sub_sq, meanQ, meanQ, List.length_map]
  field_simp
  ring

/-- Centered cross sum written through the raw product moment. -/
theorem num2_eq (x y : List ℚ) (hx : x ≠ []) (hlen : x.length = y.length) :
    sxy x y
      = x.length * (meanQ (List.zipWith (fun a b => a * b) x y) - meanQ x * meanQ y) := by
  have hn := length_cast_ne_zero hx
  have hzlen : (List.zipWith (fun a b => a * b) x y).length = x.length := by
    rw [List.length_zipWith, hlen, Nat.min_self]
  rw [sxy, sum_zipWith_sub_mul _ _ x y hlen, meanQ, meanQ, meanQ, hzlen, ← hlen]
  field_simp
  ring

/-- Two distinct sample values make the stable denominator nonzero. -/
theorem den2_ne_zero {x : List ℚ} (hdist : ∃ a ∈ x, ∃ b ∈ x, a ≠ b) : sxx x ≠ 0 := by
  intro h
  obtain ⟨a, ha, b, hb, hab⟩ := hdist
  rw [sxx] at h
  have hac := eq_of_sum_sq_eq_zero h a ha
  have hbc := eq_of_sum_sq_eq_zero h b hb
  exact hab (hac.trans hbc.symm)

theorem ne_nil_of_dist {x : List ℚ} (hdist : ∃ a ∈ x, ∃ b ∈ x, a ≠ b) : x ≠ [] := by
  obtain ⟨a, ha, -⟩ := hdist
  exact List.ne_nil_of_mem ha

/-- Two distinct sample values make the naive denominator nonzero. -/
theorem den1_ne_zero {x : List ℚ} (hdist : ∃ a ∈ x, ∃ b ∈ x, a ≠ b) :
    meanQ (x.map fun a => a ^ 2) - meanQ x ^ 2 ≠ 0 := by
  have hx := ne_nil_of_dist hdist
  intro h
  apply den2_ne_zero hdist
  rw [den2_eq x hx, h, mul_zero]

/-- In exact arithmetic the two estimators return the same pair. -/
theorem linearFit_eq_linearFit2_aux (x y : List ℚ) (hlen : x.length = y.length)
    (hdist : ∃ a ∈ x, ∃ b ∈ x, a ≠ b) :
    LinearFit x y = LinearFit2 x y := by
  have hx : x ≠ [] := ne_nil_of_dist hdist
  have hy : y ≠ [] := by
    intro h
    rw [h] at hlen
    exact hx (List.eq_nil_of_length_eq_zero hlen)
  have hn := length_cast_ne_zero hx
  have hden2 := den2_ne_zero hdist
  have hden1 := den1_ne_zero hdist
  rw [linearFit_of_ne x y hx hy hden1, linearFit2_of_ne x y hx hy hden2,
      num2_eq x y hx hlen, den2_eq x hx,
      mul_div_mul_left _ _ hn]

/-- The offset cancels inside each centered square before summing. -/
theorem sxx_map_add (x : List ℚ) (B : ℚ) (hx : x ≠ []) :
    sxx (x.map fun a => a + B) = sxx x := by
  rw [sxx, sxx, meanQ_map_add B hx, List.map_map]
  have hf : ((fun a => (a - (meanQ x + B)) ^ 2) ∘ fun a => a + B)
      = fun a => (a - meanQ x) ^ 2 := by
    funext p
    simp only [Function.comp_apply]
    ring
  rw [hf]

/-- The offset cancels inside each centered product before summing. -/
theorem sxy_map_add (x y : List ℚ) (B : ℚ) (hx : x ≠ []) :
    sxy (x.map fun a => a + B) y = sxy x y := by
  rw [sxy, sxy, meanQ_map_add B hx, List.zipWith_map_left]
  have hf : (fun a b => (a + B - (meanQ x + B)) * (b - meanQ y))
      = fun a b => (a - meanQ x) * (b - meanQ y) := by
    funext p q
    ring
  rw [hf]

/-- Exact value of the stable estimator on uniformly offset input: the slope
is unchanged and the intercept shifts with the offset. -/
theorem linearFit2_shift (x y : List ℚ) (B : ℚ) (hlen : x.length = y.length)
    (hdist : ∃ a ∈ x, ∃ b ∈ x, a ≠ b) :
    LinearFit2 (x.map fun a => a + B) y
      = some (sxy x y / sxx x,
              meanQ y - sxy x y / sxx x * (meanQ x + B)) := by
  have hx : x ≠ [] := ne_nil_of_dist hdist
  have hy : y ≠ [] := by
    intro h
    rw [h] at hlen
    exact hx (List.eq_nil_of_length_eq_zero hlen)
  have hx' : (x.map fun a => a + B) ≠ [] := by
    simpa using hx
  have hden' : sxx (x.map fun a => a + B) ≠ 0 := by
    rw [sxx_map_add x B hx]
    exact den2_ne_zero hdist
  rw [linearFit2_of_ne _ y hx' hy hden', sxx_map_add x B hx, sxy_map_add x y B hx,
      meanQ_map_add B hx]

/-- Claim C4: for equal-length sequences with at least two elements and a
well-defined denominator, the naive estimator returns the pair with
slope `(mean(x*y) - mean(x)*mean(y)) / (mean(x^2) - mean(x)^2)` and
intercept `mean(y) - slope*mean(x)`. -/
theorem LinearFit_formula (x y : List ℚ) (hlen : x.length = y.length)
    (hn : 2 ≤ x.length)
    (hden : meanQ (x.map fun a => a ^ 2) - meanQ x ^ 2 ≠ 0) :
    LinearFit x y =
      some ((meanQ (List.zipWith (fun a b => a * b) x y) - meanQ x * meanQ y) /
              (meanQ (x.map fun a => a ^ 2) - meanQ x ^ 2),
            meanQ y -
              (meanQ (List.zipWith (fun a b => a * b) x y) - meanQ x * meanQ y) /
                (meanQ (x.map fun a => a ^ 2) - meanQ x ^ 2) * meanQ x) := by
  have hx : x ≠ [] := by
    intro h
    rw [h] at hn
    simp at hn
  have hy : y ≠ [] := by
    intro h
    rw [h] at hlen
    exact hx (List.eq_nil_of_length_eq_zero hlen)
  exact linearFit_of_ne x y hx hy hden

/-- Witness for C4 at x = [0, 1], y = [0, 1]. -/
theorem LinearFit_formula_witness :
    LinearFit [0, 1] [0, 1] =
      some ((meanQ (List.zipWith (fun a b => a * b) [0, 1] [0, 1])
              - meanQ [0, 1] * meanQ [0, 1]) /
              (meanQ (([0, 1] : List ℚ).map fun a => a ^ 2) - meanQ [0, 1] ^ 2),
            meanQ [0, 1] -
              (meanQ (List.zipWith (fun a b => a * b) [0, 1] [0, 1])
                - meanQ [0, 1] * meanQ [0, 1]) /
                (meanQ (([0, 1] : List ℚ).map fun a => a ^ 2) - meanQ [0, 1] ^ 2)
                * meanQ [0, 1]) :=
  LinearFit_formula [0, 1] [0, 1] rfl (by norm_num) (by norm_num [meanQ])

/-- Claim C5: for equal-length sequences with at least two elements and a
well-defined denominator, the stable estimator returns the pair with
slope `sum((x - mean(x)) * (y - mean(y))) / sum((x - mean(x))^2)` and
intercept `mean(y) - slope*mean(x)`. -/
theorem LinearFit2_formula (x y : List ℚ) (hlen : x.length = y.length)
    (hn : 2 ≤ x.length) (hden : sxx x ≠ 0) :
    LinearFit2 x y =
      some (sxy x y / sxx x, meanQ y - sxy x y / sxx x * meanQ x) := by
  have hx : x ≠ [] := by
    intro h
    rw [h] at hn
    simp at hn
  have hy : y ≠ [] := by
    intro h
    rw [h] at hlen
    exact hx (List.eq_nil_of_length_eq_zero hlen)
  exact linearFit2_of_ne x y hx hy hden

/-- Witness for C5 at x = [0, 1], y = [0, 1]. -/
theorem LinearFit2_formula_witness :
    LinearFit2 [0, 1] [0, 1] =
      some (sxy [0, 1] [0, 1] / sxx [0, 1],
            meanQ [0, 1] - sxy [0, 1] [0, 1] / sxx [0, 1] * meanQ [0, 1]) :=
  LinearFit2_formula [0, 1] [0, 1] rfl (by norm_num) (by norm_num [sxx, meanQ])

/-- Claim C3: on any sample of equal lengths, with at least two points and
two distinct x values, the naive and the stable estimator return the same
(slope, intercept) pair in exact arithmetic; exact equality implies
agreement within any relative tolerance. -/
theorem LinearFit_agrees_LinearFit2 (x y : List ℚ) (hlen : x.length = y.length)
    (hn : 2 ≤ x.length) (hdist : ∃ a ∈ x, ∃ b ∈ x, a ≠ b) :
    LinearFit x y = LinearFit2 x y :=
  linearFit_eq_linearFit2_aux x y hlen hdist

/-- Witness for C3 at x = [0, 1], y = [0, 1]. -/
theorem LinearFit_agrees_LinearFit2_witness :
    LinearFit [0, 1] [0, 1] = LinearFit2 [0, 1] [0, 1] :=
  LinearFit_agrees_LinearFit2 [0, 1] [0, 1] rfl (by norm_num)
    ⟨0, by simp, 1, by simp, by norm_num⟩

/-- Counterexample to claim C2 as stated: the full result of the stable
estimator is not offset-invariant.  At x = [0, 1], y = [0, 1] and offset
B = 1000000, the slope agrees but the intercept moves from 0 to -1000000, a
difference at the scale of the offset, not of the spread of x (which is 1);
in exact arithmetic there is no rounding at all, so the results would have
to be equal for the claim to hold. -/
theorem LinearFit2_result_changes_under_offset :
    LinearFit2 (([0, 1] : List ℚ).map fun a => a + 1000000) [0, 1] = some (1, -1000000)
    ∧ LinearFit2 [0, 1] [0, 1] = some (1, 0)
    ∧ LinearFit2 (([0, 1] : List ℚ).map fun a => a + 1000000) [0, 1]
        ≠ LinearFit2 [0, 1] [0, 1] := by
  refine ⟨?_, ?_, ?_⟩ <;> norm_num [LinearFit2, average, meanQ]

/-- Claim C2 (amended): for every sample of equal lengths with at least two
distinct x values and every offset B, the slope component of the stable
estimator on the offset data equals the slope component on the original data
exactly; only the intercept component changes. -/
theorem LinearFit2_slope_offset_invariant (x y : List ℚ) (B : ℚ)
    (hlen : x.length = y.length) (hdist : ∃ a ∈ x, ∃ b ∈ x, a ≠ b) :
    ∃ s a1 a2, LinearFit2 x y = some (s, a1)
      ∧ LinearFit2 (x.map fun a => a + B) y = some (s, a2) := by
  have hx : x ≠ [] := ne_nil_of_dist hdist
  have hy : y ≠ [] := by
    intro h
    rw [h] at hlen
    exact hx (List.eq_nil_of_length_eq_zero hlen)
  exact ⟨sxy x y / sxx x, _, _,
    linearFit2_of_ne x y hx hy (den2_ne_zero hdist),
    linearFit2_shift x y B hlen hdist⟩

/-- Witness for C2 (amended) at x = [0, 1], y = [0, 1], B = 7. -/
theorem LinearFit2_slope_offset_invariant_witness :
    ∃ s a1 a2, LinearFit2 [0, 1] [0, 1] = some (s, a1)
      ∧ LinearFit2 (([0, 1] : List ℚ).map fun a => a + 7) [0, 1] = some (s, a2) :=
  LinearFit2_slope_offset_invariant [0, 1] [0, 1] 7 rfl
    ⟨0, by simp, 1, by simp, by norm_num⟩

/-- Claim C6: on degenerate input (fewer than two points, or all x values
identical) the denominator of each estimator is zero and both estimators
signal the undefined division observably: they return `none` (the embedding
of the source's non-finite result with its runtime warning) instead of a
numeric pair. -/
theorem degenerate_input_signaled (x y : List ℚ)
    (hdeg : x.length < 2 ∨ ∀ a ∈ x, ∀ b ∈ x, a = b) :
    LinearFit x y = none ∧ LinearFit2 x y = none := by
  cases x with
  | nil => exact ⟨by simp [LinearFit, average], by simp [LinearFit2, average]⟩
  | cons a t =>
    have hall : ∀ p ∈ (a :: t), p = a := by
      rcases hdeg with hlt | hall
      · have ht : t = [] := by
          cases t with
          | nil => rfl
          | cons q r => simp at hlt; omega
        subst ht
        intro p hp
        simpa using hp
      · intro p hp
        exact hall p hp a (List.mem_cons_self a t)
    have hx : (a :: t) ≠ [] := by simp
    have hm : meanQ (a :: t) = a := meanQ_const hx hall
    cases y with
    | nil => exact ⟨by simp [LinearFit, average], by simp [LinearFit2, average]⟩
    | cons b s =>
      have hy : (b :: s) ≠ [] := by simp
      have hx2 : ((a :: t).map fun p => p ^ 2) ≠ [] := by simp
      have hm2 : meanQ ((a :: t).map fun p => p ^ 2) = a ^ 2 := by
        apply meanQ_const hx2
        intro p hp
        obtain ⟨q, hq, rfl⟩ := List.mem_map.mp hp
        rw [hall q hq]
      have hzipne : List.zipWith (fun p q => p * q) (a :: t) (b :: s) ≠ [] := by simp
      have hden0 : ((a :: t).map fun p => (p - meanQ (a :: t)) ^ 2).sum = 0 := by
        apply List.sum_eq_zero
        intro q hq
        obtain ⟨p, hp, rfl⟩ := List.mem_map.mp hq
        rw [hall p hp, hm, sub_self]
        ring
      constructor
      · rw [LinearFit, average_eq_some hx, average_eq_some hy, average_eq_some hx2,
            average_eq_some hzipne, hm, hm2]
        simp
      · rw [LinearFit2, average_eq_some hx, average_eq_some hy]
        simp only [hden0]
        simp

/-- Witness for C6 at the spec's degenerate input x = [1, 1, 1]. -/
theorem degenerate_input_signaled_witness :
    LinearFit [1, 1, 1] [2, 5, 9] = none ∧ LinearFit2 [1, 1, 1] [2, 5, 9] = none :=
  degenerate_input_signaled [1, 1, 1] [2, 5, 9] (Or.inr (by simp))

/-- Counterexample to claim C7 as stated: on the notebook's own data the
comparator cell reports three slope values, not four; the stable estimator
is never run on the offset-subtracted data. -/
theorem comparator_not_four_values :
    (comparatorSlopes tData phData baseline).length ≠ 4 := by
  simp [comparatorSlopes]

/-- Claim C7 (amended): given x, y and an offset B, the comparator computes
and reports three slope values, in order: naive with the offset present,
naive with the offset subtracted first, and stable with the offset present;
the latter two agree with each other exactly in exact arithmetic, exposing
the discrepancy with the first. -/
theorem comparator_three_slopes (x y : List ℚ) (B : ℚ)
    (hlen : x.length = y.length) (hdist : ∃ a ∈ x, ∃ b ∈ x, a ≠ b) :
    comparatorSlopes x y B
      = [Option.map Prod.fst (LinearFit x y),
         Option.map Prod.fst (LinearFit (x.map fun a => a - B) y),
         Option.map Prod.fst (LinearFit2 x y)]
    ∧ Option.map Prod.fst (LinearFit (x.map fun a => a - B) y)
        = Option.map Prod.fst (LinearFit2 x y) := by
  have hx : x ≠ [] := ne_nil_of_dist hdist
  have hy : y ≠ [] := by
    intro h
    rw [h] at hlen
    exact hx (List.eq_nil_of_length_eq_zero hlen)
  refine ⟨rfl, ?_⟩
  have hsub : (fun a : ℚ => a - B) = fun a => a + (-B) := by
    funext a
    ring
  have hdist2 : ∃ a ∈ x.map fun p => p - B, ∃ b ∈ x.map fun p => p - B, a ≠ b := by
    obtain ⟨a, ha, b, hb, hab⟩ := hdist
    refine ⟨a - B, List.mem_map_of_mem _ ha, b - B, List.mem_map_of_mem _ hb, ?_⟩
    intro h
    apply hab
    linarith
  have hlen2 : (x.map fun p => p - B).length = y.length := by
    rw [List.length_map, hlen]
  rw [linearFit_eq_linearFit2_aux _ y hlen2 hdist2, hsub,
      linearFit2_shift x y (-B) hlen hdist,
      linearFit2_of_ne x y hx hy (den2_ne_zero hdist)]
  simp

/-- Witness for C7 (amended) at x = [0, 1], y = [0, 1], B = 3. -/
theorem comparator_three_slopes_witness :
    comparatorSlopes [0, 1] [0, 1] 3
      = [Option.map Prod.fst (LinearFit [0, 1] [0, 1]),
         Option.map Prod.fst (LinearFit (([0, 1] : List ℚ).map fun a => a - 3) [0, 1]),
         Option.map Prod.fst (LinearFit2 [0, 1] [0, 1])]
    ∧ Option.map Prod.fst (LinearFit (([0, 1] : List ℚ).map fun a => a - 3) [0, 1])
        = Option.map Prod.fst (LinearFit2 [0, 1] [0, 1]) :=
  comparator_three_slopes [0, 1] [0, 1] 3 rfl ⟨0, by simp, 1, by simp, by norm_num⟩

/-- Claim C8: the mean calculation returns the arithmetic mean of every
non-empty sequence, returns the mean of elementwise products for a pair of
sequences, and fails (returns `none`) on the empty sequence; it is a pure
function, so it has no side effects. -/
theorem average_contract (xs x y : List ℚ) :
    (xs ≠ [] → average xs = some (xs.sum / xs.length))
    ∧ average ([] : List ℚ) = none
    ∧ (x ≠ [] → x.length = y.length →
        average (List.zipWith (fun a b => a * b) x y)
          = some ((List.zipWith (fun a b => a * b) x y).sum / x.length)) := by
  refine ⟨fun h => average_eq_some h, rfl, fun hx hlen => ?_⟩
  have hz : List.zipWith (fun a b => a * b) x y ≠ [] := by
    cases x with
    | nil => exact absurd rfl hx
    | cons a t =>
      cases y with
      | nil =>
        rw [List.length_nil] at hlen
        exact absurd (List.eq_nil_of_length_eq_zero hlen) hx
      | cons b s => simp
  have hzlen : (List.zipWith (fun a b => a * b) x y).length = x.length := by
    rw [List.length_zipWith, hlen, Nat.min_self]
  rw [average_eq_some hz, meanQ, hzlen]

/-- Witness for C8 at [3, 5] and at the products of [1, 2] and [3, 4]. -/
theorem average_contract_witness :
    average [3, 5] = some (([3, 5] : List ℚ).sum / (([3, 5] : List ℚ).length : ℚ))
    ∧ average (List.zipWith (fun a b => a * b) [1, 2] [3, 4])
        = some ((List.zipWith (fun a b => a * b) ([1, 2] : List ℚ) [3, 4]).sum
                  / (([1, 2] : List ℚ).length : ℚ)) :=
  ⟨(average_contract [3, 5] [1, 2] [3, 4]).1 (by simp),
   (average_contract [3, 5] [1, 2] [3, 4]).2.2 (by simp) rfl⟩

/-- Claim C9: running either estimator or the comparator leaves the caller's
arrays exactly as they were; the only products of a call are the returned
pair and the printed report.  The bodies contain no in-place array
assignment (contrast `function4`, whose `e[2] = 0` is modelled by
`List.set`), so each call's caller-visible state is the input state. -/
theorem estimators_preserve_inputs (x y : List ℚ) (B : ℚ) :
    (LinearFitCall x y).2 = (x, y)
    ∧ (LinearFit2Call x y).2 = (x, y)
    ∧ (comparatorCall x y B).2 = (x, y) :=
  ⟨rfl, rfl, rfl⟩

/-- Counterexample to claim C10 as stated: the claim quantifies over every
array argument, but on the two-element array [5, 6] the assignment
`e[2] = 0` raises an IndexError (modelled as `none`), so there is no
post-call array whose element 2 is 0. -/
theorem function4_short_array :
    function4 [5, 6] = none
    ∧ ¬ ∃ e2 : List ℚ, function4 [5, 6] = some e2 ∧ e2.get? 2 = some 0 := by
  constructor
  · rfl
  · rintro ⟨e2, he, -⟩
    simp [function4] at he

/-- Claim C10 (amended): for every array argument with at least three
elements, `function4` mutates the caller's array in place (after the call
element 2 is 0), whereas `function4_safe`, which copies its argument before
modifying it, leaves the caller's array unchanged. -/
theorem function4_mutates_caller_array (e : List ℚ) (h : 3 ≤ e.length) :
    function4 e = some (e.set 2 0)
    ∧ (e.set 2 0).get? 2 = some 0
    ∧ function4_safe e = some e := by
  match e, h with
  | a :: b :: c :: t, _ =>
    have h2 : 2 < (a :: b :: c :: t).length := by
      simp
    refine ⟨?_, rfl, ?_⟩
    · simp only [function4, if_pos h2]
    · simp only [function4_safe, npCopy, if_pos h2]

/-- Witness for C10 (amended) at the notebook's array [1, 2, 3]. -/
theorem function4_mutates_caller_array_witness :
    function4 [1, 2, 3] = some (([1, 2, 3] : List ℚ).set 2 0)
    ∧ (([1, 2, 3] : List ℚ).set 2 0).get? 2 = some 0
    ∧ function4_safe [1, 2, 3] = some [1, 2, 3] :=
  function4_mutates_caller_array [1, 2, 3] (by norm_num)

end Scripts
